import Mathlib

/-!
Verification of the cover-extraction logic of `epub-thumbnailer.py`.

The Python source is shallowly embedded: every function of the script that
the verified claims touch is translated into an executable Lean definition
carrying the same name.  Python exceptions are modelled by the `PRes` result
monad below; Python `float` values that the script merely parses and passes
around are modelled as rationals (no float arithmetic is performed by the
script on them).  Behaviour delegated by the script to the standard library
(`re`, `os.path`, `zipfile`, `xml.dom.minidom`, `float(...)`) is modelled by
explicit executable definitions of the fragments the script exercises, noted
at each definition.
-/

/-! ## Generic character and list helpers -/

/-- An ASCII decimal digit (the `\d` class and the digits accepted by
`float`, restricted to ASCII as discussed above). -/
def isAsciiDigit (c : Char) : Bool :=
  48 ≤ c.toNat && c.toNat ≤ 57

/-- Whitespace accepted and stripped by Python `float(str)`: space, tab,
newline, carriage return, vertical tab, form feed. -/
def isPyWs (c : Char) : Bool :=
  c.toNat = 32 || c.toNat = 9 || c.toNat = 10 || c.toNat = 13 ||
    c.toNat = 11 || c.toNat = 12

/-- ASCII lower-casing, the fragment of `str.lower()` the script needs. -/
def pyLower (c : Char) : Char :=
  if 65 ≤ c.toNat && c.toNat ≤ 90 then Char.ofNat (c.toNat + 32) else c

/-- Drop trailing characters satisfying `isPyWs`. -/
def dropTrailingWs : List Char → List Char
  | [] => []
  | c :: r =>
    match dropTrailingWs r with
    | [] => if isPyWs c then [] else [c]
    | r2 => c :: r2

/-- Model of Python `str.lower()` on the ASCII fragment used by the script. -/
def lowerList (l : List Char) : List Char :=
  l.map pyLower

/-- Model of Python substring containment `pat in s`. -/
def containsSub (pat l : List Char) : Bool :=
  l.tails.any (fun t => pat.isPrefixOf t)

/-- Model of Python `s.split(sep, 1)`: split at the first occurrence of
`sep`, producing one piece (no separator present) or two pieces. -/
def splitFirst (sep : Char) : List Char → List (List Char)
  | [] => [[]]
  | c :: r =>
    if c = sep then [[], r]
    else
      match splitFirst sep r with
      | [a] => [c :: a]
      | [a, b] => [c :: a, b]
      | other => other

/-- Model of Python `s.split(sep)` (unlimited splits). -/
def splitAll (sep : Char) : List Char → List (List Char)
  | [] => [[]]
  | c :: r =>
    let rest := splitAll sep r
    if c = sep then [] :: rest
    else
      match rest with
      | h :: t => (c :: h) :: t
      | [] => [[c]]

/-! ## The three compiled regular expressions of the script

`img_ext_regex = re.compile(r'^.*\.(jpg|jpeg|png)$', re.IGNORECASE)` used via
`.match`, `cover_regex = re.compile(r'.*cover.*\.(jpg|jpeg|png)', re.IGNORECASE)`
used via `.match` (note: no end anchor), and
`size_regex = re.compile(r'\d{1,4}[xX]\d{1,4}')` used via `.match` (a prefix
match, no anchors).  The models below follow `re.match` prefix semantics; the
dot metacharacter does not cross a newline and `$` also matches just before a
trailing newline.  `\d` is modelled as an ASCII digit. -/

/-- Truth of `img_ext_regex.match(s)`: case-insensitively, the whole name
(up to one trailing newline) ends in `.jpg`, `.jpeg` or `.png`. -/
def img_ext_regex (s : String) : Bool :=
  let l := lowerList s.data
  let core := if l.getLast? = some '\x0a' then l.dropLast else l
  !(core.contains '\x0a') &&
    ([".jpg", ".jpeg", ".png"].any (fun e => e.data.isSuffixOf core))

/-- Truth of `cover_regex.match(s)`: case-insensitively, some prefix of the
name (regex `.` cannot cross a newline) contains `cover` followed later by
`.jpg`, `.jpeg` or `.png` (no end anchor in the pattern). -/
def cover_regex (s : String) : Bool :=
  let l := (lowerList s.data).takeWhile (fun c => c ≠ '\x0a')
  l.tails.any (fun t =>
    "cover".data.isPrefixOf t &&
      (t.drop 5).tails.any (fun u =>
        ".jpg".data.isPrefixOf u || ".jpeg".data.isPrefixOf u ||
          ".png".data.isPrefixOf u))

/-- Truth of `size_regex.match(s)`: the string starts with one to four
digits, followed by `x` or `X`, followed by at least one digit. -/
def size_regex (l : List Char) : Bool :=
  [1, 2, 3, 4].any (fun k =>
    (l.take k).length = k && (l.take k).all isAsciiDigit &&
      (match l[k]? with
       | some c => c = 'x' || c = 'X'
       | none => false) &&
      (match l[k + 1]? with
       | some c => isAsciiDigit c
       | none => false))

/-! ## Model of Python `float(str)`

The script feeds `float` with the two halves of a size string split at its
first `x`; the model covers the decimal-literal fragment of Python floats
(optional sign, integer and fractional digits, optional exponent, optional
surrounding whitespace).  Underscored literals, `inf` and `nan` are outside
the fragment the script can reach and are not modelled. -/

/-- Numeric value of a list of ASCII digits. -/
def digitsVal (l : List Char) : Nat :=
  l.foldl (fun a c => a * 10 + (c.toNat - 48)) 0

/-- Parse a non-empty all-digit list. -/
def parseDigits1 (l : List Char) : Option Nat :=
  if l ≠ [] && l.all isAsciiDigit then some (digitsVal l) else none

/-- Parse an optionally signed non-empty digit list. -/
def parseSignedDigits (l : List Char) : Option Int :=
  match l with
  | '-' :: r => (parseDigits1 r).map (fun n => -(n : Int))
  | '+' :: r => (parseDigits1 r).map (fun n => (n : Int))
  | r => (parseDigits1 r).map (fun n => (n : Int))

/-- Parse the exponent suffix of a float literal (empty means exponent 0). -/
def parseExp (l : List Char) : Option Int :=
  match l with
  | [] => some 0
  | 'e' :: r => parseSignedDigits r
  | 'E' :: r => parseSignedDigits r
  | _ => none

/-- Apply a decimal exponent to a rational (exponent zero leaves the value
unchanged). -/
def applyExp (q : ℚ) (e : Int) : ℚ :=
  if e = 0 then q
  else if 0 ≤ e then q * (10 : ℚ) ^ e.toNat
  else q / (10 : ℚ) ^ (-e).toNat

/-- Parse the unsigned body of a float literal: integer digits, an optional
fractional part, and an optional exponent. -/
def pyFloatBody (l : List Char) : Option ℚ :=
  let ip := l.takeWhile isAsciiDigit
  let r1 := l.dropWhile isAsciiDigit
  match r1 with
  | '.' :: r2 =>
    let fp := r2.takeWhile isAsciiDigit
    let r3 := r2.dropWhile isAsciiDigit
    if ip.length + fp.length = 0 then none
    else
      (parseExp r3).map (fun e =>
        applyExp ((digitsVal ip : ℚ) + (digitsVal fp : ℚ) / (10 : ℚ) ^ fp.length) e)
  | _ =>
    if ip.length = 0 then none
    else (parseExp r1).map (fun e => applyExp (digitsVal ip : ℚ) e)

/-- Model of Python `float(str)` on the fragment described above; `none`
models a raised `ValueError`. -/
def pyFloat (l : List Char) : Option ℚ :=
  let t := dropTrailingWs (l.dropWhile isPyWs)
  match t with
  | '-' :: r => (pyFloatBody r).map (fun q => -q)
  | '+' :: r => pyFloatBody r
  | _ => pyFloatBody t

/-! ## Python exceptions and the result monad -/

/-- The Python exceptions the script can raise or propagate. -/
inductive PyError where
  /-- `KeyError` from `ZipFile.open` on a missing entry name. -/
  | keyError (name : String)
  /-- `IndexError` from subscripting an empty element list. -/
  | indexError
  /-- `ExpatError` from `minidom.parseString` on non-XML bytes. -/
  | expatError
  /-- `ValueError` with its message. -/
  | valueError (msg : String)
  /-- `BadZipFile` from `zipfile.ZipFile` on non-zip bytes. -/
  | badZipFile
  /-- `UnidentifiedImageError` from `PIL.Image.open` on non-image bytes. -/
  | unidentifiedImage
  /-- `NameError` from evaluating an undefined variable name. -/
  | nameError (name : String)
  deriving DecidableEq

/-- Result of running a piece of Python code: a value or a raised exception. -/
inductive PRes (α : Type) where
  | ok (a : α)
  | error (e : PyError)
  deriving DecidableEq

/-- Sequencing of Python computations: an exception propagates. -/
def PRes.bind : PRes α → (α → PRes β) → PRes β
  | .ok a, f => f a
  | .error e, _ => .error e

instance : Monad PRes where
  pure := .ok
  bind := PRes.bind

/-! ## The size argument and `_parse_size` -/

/-- The runtime value passed as the `size` argument: Python `None`, an
`int`, a `float`, a `str`, or any other object (with its truthiness). -/
inductive SizeArg where
  | pynone
  | int (n : Int)
  | float (q : ℚ)
  | str (s : String)
  | other (truthy : Bool)
  deriving DecidableEq

/-- Python truthiness test `not size` used by `_parse_size`. -/
def SizeArg.isFalsy : SizeArg → Bool
  | .pynone => true
  | .int n => n = 0
  | .float q => q = 0
  | .str s => s = ""
  | .other t => !t

/-- The `ValueError` message built in `_parse_size` for inputs of the wrong
shape (two adjacent string literals in the source). -/
def sizePrompt : String :=
  "Size must be a float (same height/width) or a string representing height/width (eg. 256.34x300)"

/-- Translation of `_parse_size` (lines 135-153 of the script): falsy input
gives the default, numbers give a square pair, strings are prefix-matched
against `size_regex`, lower-cased, split at the first `x` (at most one
split), and each piece is parsed with `float`; everything else raises
`ValueError`.  The returned tuple is modelled as the list of its
components. -/
def _parse_size (size : SizeArg) : PRes (List ℚ) :=
  if size.isFalsy then .ok [256, 256]
  else
    match size with
    | .int n => .ok [(n : ℚ), (n : ℚ)]
    | .float q => .ok [q, q]
    | .str s =>
      if !size_regex s.data then .error (.valueError sizePrompt)
      else
        let pieces := (splitFirst 'x' (lowerList s.data)).map pyFloat
        if pieces.all Option.isSome then .ok pieces.reduceOption
        else .error (.valueError "Cannot parse floats from size parameter")
    | _ => .error (.valueError sizePrompt)

/-- Reference definition of the size normalizer, written from the
specification text: absent input gives `(256, 256)`, a numeric input `s`
gives `(s, s)`, a string matching the size pattern is split on its `x`/`X`
separator with both halves parsed as floating-point numbers (a failing
conversion is a `ValueError`), and any other input is a `ValueError`. -/
def parse_size_ref (size : SizeArg) : PRes (List ℚ) :=
  match size with
  | .pynone => .ok [256, 256]
  | .int n => .ok [(n : ℚ), (n : ℚ)]
  | .float q => .ok [q, q]
  | .str s =>
    if size_regex s.data then
      match (splitFirst 'x' (lowerList s.data)).map pyFloat with
      | [some a, some b] => .ok [a, b]
      | _ => .error (.valueError "Cannot parse floats from size parameter")
    else .error (.valueError sizePrompt)
  | .other _ => .error (.valueError sizePrompt)

/-- The reference definition amended with the falsiness behaviour of the
code: the values `0`, `0.0`, `""` and any other falsy object are treated
exactly like an absent size. -/
def parse_size_ref_amended (size : SizeArg) : PRes (List ℚ) :=
  if size.isFalsy then .ok [256, 256] else parse_size_ref size


/-! ## Model of the `os.path` (posixpath) fragment used by the script -/

/-- Model of `os.path.isabs`. -/
def isAbs (p : String) : Bool :=
  p.data.head? = some '/'

/-- Join path components with `/` separators. -/
def joinComps (comps : List (List Char)) : List Char :=
  List.intercalate ['/'] comps

/-- Model of `posixpath.normpath`: collapse repeated separators and
`.`/`..` components, preserving the special two-slash prefix. -/
def normpath (p : String) : String :=
  if p = "" then "."
  else
    let l := p.data
    let initialSlashes : Nat :=
      if l.head? = some '/' then
        if "//".data.isPrefixOf l && !("///".data.isPrefixOf l) then 2 else 1
      else 0
    let newComps := (splitAll '/' l).foldl (fun acc comp =>
      if comp = [] || comp = ['.'] then acc
      else if comp ≠ "..".data || (initialSlashes = 0 && acc = []) ||
          acc.head? = some "..".data then comp :: acc
      else if acc ≠ [] then acc.tail
      else acc) []
    let res := List.replicate initialSlashes '/' ++ joinComps newComps.reverse
    if res = [] then "." else ⟨res⟩

/-- Model of the two-argument `posixpath.join`. -/
def pjoin (a b : String) : String :=
  if isAbs b then b
  else if a = "" || a.data.getLast? = some '/' then a ++ b
  else a ++ "/" ++ b

/-- Model of `posixpath.abspath` relative to a current working directory. -/
def abspath (cwd p : String) : String :=
  if isAbs p then normpath p else normpath (pjoin cwd p)

/-- Drop trailing `/` characters. -/
def dropTrailingSlashes (l : List Char) : List Char :=
  (l.reverse.dropWhile (fun c => c = '/')).reverse

/-- Model of `posixpath.split` on character lists: break at the final
separator, stripping trailing separators from the head unless the head is
all separators. -/
def pathSplitList (l : List Char) : List Char × List Char :=
  let tl := (l.reverse.takeWhile (fun c => c ≠ '/')).reverse
  let hd := l.take (l.length - tl.length)
  (if hd ≠ [] && hd.any (fun c => c ≠ '/') then dropTrailingSlashes hd else hd, tl)

/-- Model of `posixpath.dirname`. -/
def dirname (p : String) : String :=
  ⟨(pathSplitList p.data).1⟩

/-- Model of `posixpath.splitext` on character lists: split the extension
at the last dot of the final component unless that component's leading
characters up to the dot are all dots. -/
def splitextList (l : List Char) : List Char × List Char :=
  let base := (l.reverse.takeWhile (fun c => c ≠ '/')).reverse
  let extRev := base.reverse.takeWhile (fun c => c ≠ '.')
  if extRev.length = base.length then (l, [])
  else
    let nameLen := base.length - extRev.length - 1
    if (base.take nameLen).all (fun c => c = '.') then (l, [])
    else (l.take (l.length - extRev.length - 1), l.drop (l.length - extRev.length - 1))

/-- Translation of `_parse_output` (lines 156-165): replace the extension
of the absolute input path with `.png`. -/
def _parse_output (cwd filename : String) : String :=
  let ab := abspath cwd filename
  let sp := pathSplitList ab.data
  let fn := (splitextList sp.2).1
  pjoin ⟨sp.1⟩ ⟨fn ++ ".png".data⟩

/-! ## Model of the parsed XML documents (`xml.dom.minidom`)

A parsed document is its root element; an element has a tag, attributes and
child elements in document order.  `getElementsByTagName` on the document
returns every element of the tree (root included) with the given tag in
document (preorder) order; on an element it searches only proper
descendants.  `getAttribute` returns the empty string for an absent
attribute. -/

/-- A parsed XML element. -/
inductive XmlNode where
  | elem (tag : String) (attrs : List (String × String)) (children : List XmlNode)

/-- Tag name of an element. -/
def XmlNode.tag : XmlNode → String
  | .elem t _ _ => t

/-- Child elements of an element. -/
def XmlNode.children : XmlNode → List XmlNode
  | .elem _ _ cs => cs

/-- Model of `getAttribute`: the empty string when the attribute is absent. -/
def XmlNode.getAttribute (n : XmlNode) (name : String) : String :=
  match n with
  | .elem _ attrs _ => ((attrs.find? (fun a => a.1 = name)).map (fun a => a.2)).getD ""

mutual

/-- All elements of a subtree, root first, in document (preorder) order. -/
def subtreeElems : XmlNode → List XmlNode
  | .elem t a cs => .elem t a cs :: subtreeForest cs

/-- All elements of a forest of subtrees in document (preorder) order. -/
def subtreeForest : List XmlNode → List XmlNode
  | [] => []
  | n :: r => subtreeElems n ++ subtreeForest r

end

/-- Model of `Document.getElementsByTagName` on a document with root
element `root`. -/
def docByTag (root : XmlNode) (tag : String) : List XmlNode :=
  (subtreeElems root).filter (fun m => m.tag = tag)

/-- Model of `Element.getElementsByTagName` (proper descendants only). -/
def elemByTag (n : XmlNode) (tag : String) : List XmlNode :=
  (subtreeForest n.children).filter (fun m => m.tag = tag)

/-! ## Model of the opened archive (`zipfile.ZipFile`) -/

/-- What the bytes of an archive entry amount to for the script: a
well-formed XML document, a PIL-decodable image with a colour mode, or
bytes that are neither. -/
inductive EntryData where
  | xml (root : XmlNode)
  | image (mode : String)
  | raw

/-- An archive entry: `ZipInfo` name and size plus the entry's bytes,
abstracted to `EntryData`. -/
structure ZipEntry where
  filename : String
  file_size : Nat
  data : EntryData

/-- An opened zip archive: its `filelist` in stored order. -/
structure EpubArchive where
  filelist : List ZipEntry

/-- Model of `ZipFile.open(name)`: `KeyError` when no entry has that name;
with duplicate names the last one wins (`NameToInfo` is built by
overwriting in `filelist` order). -/
def EpubArchive.openEntry (z : EpubArchive) (name : String) : PRes ZipEntry :=
  match z.filelist.reverse.find? (fun e => e.filename = name) with
  | some e => .ok e
  | none => .error (.keyError name)

/-- Model of `minidom.parseString` on an entry's bytes: `ExpatError`
unless they are well-formed XML. -/
def parseXmlEntry (e : ZipEntry) : PRes XmlNode :=
  match e.data with
  | .xml root => .ok root
  | _ => .error .expatError

/-- Model of Python list subscripting `l[i]`: `IndexError` out of range. -/
def pyIndex (l : List α) (i : Nat) : PRes α :=
  match l[i]? with
  | some x => .ok x
  | none => .error .indexError

/-! ## The manifest cover resolver -/

/-- First `meta` element whose `name` attribute is `cover` yields the
`cover_id` (the loop breaks at the first hit); `none` models the Python
`None` left when no such element exists. -/
def findCoverId (metas : List XmlNode) : Option String :=
  (metas.find? (fun m => m.getAttribute "name" = "cover")).map
    (fun m => m.getAttribute "content")

/-- The cover-candidate test applied to a manifest `item` element
(lines 75-83): the `id` equals `cover_id`, or contains `cover` with an
image-like `href`, or the same two tests on `properties`.  A comparison
with the Python `None` held in `cover_id` is always false. -/
def itemMatches (cover_id : Option String) (item : XmlNode) : Bool :=
  let item_id := item.getAttribute "id"
  let item_properties := item.getAttribute "properties"
  let item_href := item.getAttribute "href"
  let item_href_is_image := img_ext_regex ⟨lowerList item_href.data⟩
  let id_eq := match cover_id with
    | some c => item_id = c
    | none => false
  let props_eq := match cover_id with
    | some c => item_properties = c
    | none => false
  (id_eq || (containsSub "cover".data item_id.data && item_href_is_image)) ||
    (props_eq || (containsSub "cover".data item_properties.data && item_href_is_image))

/-- Translation of `get_cover_from_manifest` (lines 48-86): open and parse
`META-INF/container.xml`, take the first `rootfile` element, open and parse
the package document at its `full-path`, read the optional `cover_id`,
subscript the first `manifest` element, and return the `href` of the first
matching `item`, joined to the rootfile's directory; `none` when no item
matches. -/
def get_cover_from_manifest (epub : EpubArchive) : PRes (Option String) := do
  let container ← epub.openEntry "META-INF/container.xml"
  let container_root ← parseXmlEntry container
  let elem0 ← pyIndex (docByTag container_root "rootfile") 0
  let rootfile_path := elem0.getAttribute "full-path"
  let rootfile ← epub.openEntry rootfile_path
  let rootfile_root ← parseXmlEntry rootfile
  let cover_id := findCoverId (docByTag rootfile_root "meta")
  let manifest ← pyIndex (docByTag rootfile_root "manifest") 0
  pure (((elemByTag manifest "item").find? (itemMatches cover_id)).map
    (fun item => pjoin (dirname rootfile_path) (item.getAttribute "href")))

/-! ## The filename heuristic resolver -/

/-- The dynamic type of the value a strategy hands to the extractor: the
manifest strategy and the first branch of the filename strategy produce an
entry name (`str`), while `_choose_best_image` produces the `ZipInfo`
object itself. -/
inductive CoverPath where
  | name (s : String)
  | info (e : ZipEntry)

/-- Model of Python `max(images, key=lambda f: f.file_size)`: a later
element replaces the current best only when strictly larger, so the first
of the largest entries wins. -/
def bestOf (b : ZipEntry) : List ZipEntry → ZipEntry
  | [] => b
  | f :: r => bestOf (if f.file_size > b.file_size then f else b) r

/-- Translation of `_choose_best_image` (lines 107-111): the largest entry
of a non-empty list (as a `ZipInfo` object), `None` otherwise. -/
def _choose_best_image (images : List ZipEntry) : Option ZipEntry :=
  match images with
  | [] => none
  | x :: r => some (bestOf x r)

/-- The loop of `get_cover_by_filename` with its accumulator list
`no_matching_images`. -/
def coverByFilenameLoop : List ZipEntry → List ZipEntry → Option CoverPath
  | [], acc => (_choose_best_image acc).map CoverPath.info
  | f :: rest, acc =>
    if cover_regex f.filename then some (.name f.filename)
    else
      coverByFilenameLoop rest (acc ++ if img_ext_regex f.filename then [f] else [])

/-- Translation of `get_cover_by_filename` (lines 89-104): return the name
of the first entry matching `cover_regex`; otherwise collect the entries
matching `img_ext_regex` and hand them to `_choose_best_image`. -/
def get_cover_by_filename (epub : EpubArchive) : Option CoverPath :=
  coverByFilenameLoop epub.filelist []

/-- Reference definition of the filename heuristic, written from the
specification text: the name of the first entry (in stored order) matching
the cover pattern; failing that, the first-encountered entry of maximal
byte size among the image-extension entries; nothing when no
image-extension entry exists. -/
def coverByFilenameSpec (epub : EpubArchive) : Option CoverPath :=
  match epub.filelist.find? (fun f => cover_regex f.filename) with
  | some f => some (.name f.filename)
  | none =>
    let imgs := epub.filelist.filter (fun f => img_ext_regex f.filename)
    (imgs.find? (fun f => imgs.all (fun g => g.file_size ≤ f.file_size))).map CoverPath.info

/-! ## The extractor and the orchestrator -/

/-- Python truthiness of the `cover_path` argument of `extract_cover`. -/
def coverPathTruthy : Option CoverPath → Bool
  | none => false
  | some (.name s) => s ≠ ""
  | some (.info _) => true

/-- Translation of `extract_cover` (lines 114-132): falsy `cover_path`
returns `False` with no work; otherwise the named entry is opened
(`ZipFile.open` accepts both a name and a `ZipInfo` object) and decoded by
PIL (`UnidentifiedImageError` on non-image bytes).  The resize,
CMYK-to-RGB conversion and PNG save on the decoded image are external PIL
calls that succeed for a decodable image; the written file itself is
outside the model, so `size` and `output_file` do not influence the
returned flag. -/
def extract_cover (cover_path : Option CoverPath) (epub : EpubArchive)
    (size : List ℚ) (output_file : String) : PRes Bool :=
  match cover_path with
  | none => .ok false
  | some (.name s) =>
    if s = "" then .ok false
    else do
      let cover ← epub.openEntry s
      match cover.data with
      | .image _ => .ok true
      | _ => .error .unidentifiedImage
  | some (.info e) =>
    match e.data with
    | .image _ => .ok true
    | _ => .error .unidentifiedImage

/-- Bytes stored at a path of the file system: an epub archive that
`zipfile.ZipFile` opens successfully, or bytes it rejects. -/
inductive FileContent where
  | epubZip (z : EpubArchive)
  | notZip

/-- The file system visible to `get_cover`: the working directory used by
`os.path.abspath` and the contents found at absolute paths;
`os.path.exists` holds exactly at the recorded paths. -/
structure Fs where
  cwd : String
  files : List (String × FileContent)

/-- Content stored at an absolute path, when the path exists. -/
def lookupFile (fs : Fs) (p : String) : Option FileContent :=
  (fs.files.find? (fun f => f.1 = p)).map (fun f => f.2)

/-- Translation of `_formal_checks` (lines 168-177): make the input path
absolute, default the output path via `_parse_output`, and normalize the
size (propagating its `ValueError`). -/
def _formal_checks (cwd filein : String) (fileimg : Option String)
    (size : SizeArg) : PRes (String × String × List ℚ) := do
  let filein2 := abspath cwd filein
  let fileimg2 := match fileimg with
    | some f => f
    | none => _parse_output cwd filein2
  let size2 ← _parse_size size
  pure (filein2, fileimg2, size2)

/-- Translation of `get_cover` (lines 180-213): formal checks first, then
the existence test on the absolute input path (a `ValueError` naming the
original argument when it fails), then the archive is opened and the two
strategies run in order.  A strategy whose resolution or extraction raises
lands in the `except` block, whose f-string reads the undefined name
`stratey` (line 211) and therefore raises `NameError` before the intended
`EpubThumbnailerException` can be built.  Falling off the loop returns the
implicit Python `None`. -/
def get_cover (fs : Fs) (filein : String) (fileimg : Option String)
    (size : SizeArg) : PRes (Option String) :=
  match _formal_checks fs.cwd filein fileimg size with
  | .error e => .error e
  | .ok (input_file, output_file, size2) =>
    match lookupFile fs input_file with
    | none => .error (.valueError (filein ++ " does not exists or can\x27t be accessed"))
    | some .notZip => .error .badZipFile
    | some (.epubZip epub) =>
      match (do
          let cover_path ← get_cover_from_manifest epub
          extract_cover (cover_path.map CoverPath.name) epub size2 output_file) with
      | .error _ => .error (.nameError "stratey")
      | .ok true => .ok (some output_file)
      | .ok false =>
        match extract_cover (get_cover_by_filename epub) epub size2 output_file with
        | .error _ => .error (.nameError "stratey")
        | .ok true => .ok (some output_file)
        | .ok false => .ok none

/-! ## Concrete archives and file systems used as witnesses -/

/-- A well-formed archive: container at `META-INF/container.xml` pointing
at `OEBPS/content.opf`, whose manifest declares the cover image
`images/cover.jpg` under the id named by the `meta[name=cover]` element. -/
def zStandard : EpubArchive :=
  ⟨[⟨"META-INF/container.xml", 120,
      .xml (.elem "container" []
        [.elem "rootfiles" []
          [.elem "rootfile" [("full-path", "OEBPS/content.opf")] []]])⟩,
    ⟨"OEBPS/content.opf", 300,
      .xml (.elem "package" []
        [.elem "metadata" []
          [.elem "meta" [("name", "cover"), ("content", "cover-image")] []],
         .elem "manifest" []
           [.elem "item" [("id", "toc"), ("href", "toc.ncx")] [],
            .elem "item" [("id", "cover-image"), ("href", "images/cover.jpg")] []]])⟩,
    ⟨"OEBPS/images/cover.jpg", 5000, .image "RGB"⟩]⟩

/-- An archive whose package document parses but holds no `manifest`
element. -/
def zNoManifest : EpubArchive :=
  ⟨[⟨"META-INF/container.xml", 120,
      .xml (.elem "container" [] [.elem "rootfile" [("full-path", "content.opf")] []])⟩,
    ⟨"content.opf", 100, .xml (.elem "package" [] [.elem "metadata" [] []])⟩]⟩

/-- An archive with container, package and manifest in place, but with no
matching manifest item and no image-like entry names. -/
def zNoCandidates : EpubArchive :=
  ⟨[⟨"META-INF/container.xml", 120,
      .xml (.elem "container" [] [.elem "rootfile" [("full-path", "content.opf")] []])⟩,
    ⟨"content.opf", 100, .xml (.elem "package" [] [.elem "manifest" [] []])⟩]⟩

/-- An archive whose package document has a `meta[name=cover]` element with
an empty `content` attribute: the first item matches through the
`cover`-in-id clause, the second lacks `properties` entirely. -/
def zEmptyCoverId : EpubArchive :=
  ⟨[⟨"META-INF/container.xml", 120,
      .xml (.elem "container" [] [.elem "rootfile" [("full-path", "content.opf")] []])⟩,
    ⟨"content.opf", 100,
      .xml (.elem "package" []
        [.elem "meta" [("name", "cover"), ("content", "")] [],
         .elem "manifest" []
           [.elem "item" [("id", "cover1"), ("properties", "x"), ("href", "c.jpg")] [],
            .elem "item" [("id", "i2"), ("href", "toc.ncx")] []]])⟩]⟩

/-- A file system holding the standard archive at `/books/b.epub`. -/
def fsStandard : Fs :=
  ⟨"/home", [("/books/b.epub", .epubZip zStandard)]⟩

/-- A file system holding an entirely empty (but valid) zip archive. -/
def fsEmptyZip : Fs :=
  ⟨"/", [("/b.epub", .epubZip (⟨[]⟩ : EpubArchive))]⟩

/-- A file system holding an archive with a lone non-image, non-XML entry. -/
def fsMimetypeOnly : Fs :=
  ⟨"/", [("/c.epub", .epubZip (⟨[⟨"mimetype", 20, .raw⟩]⟩ : EpubArchive))]⟩

/-- A file system holding the no-candidate archive at `/n.epub`. -/
def fsNoCandidates : Fs :=
  ⟨"/", [("/n.epub", .epubZip zNoCandidates)]⟩

/-- An empty file system: no path exists. -/
def fsEmpty : Fs :=
  ⟨"/", []⟩

/-! ## Helper lemmas -/

@[simp] theorem PRes.bind_ok (a : α) (f : α → PRes β) :
    (PRes.ok a >>= f) = f a := rfl

@[simp] theorem PRes.bind_error (e : PyError) (f : α → PRes β) :
    ((PRes.error e : PRes α) >>= f) = .error e := rfl

@[simp] theorem PRes.pure_eq (a : α) : (pure a : PRes α) = .ok a := rfl

theorem isPyWs_false_of_digit (c : Char) (h : isAsciiDigit c = true) :
    isPyWs c = false := by
  simp only [isAsciiDigit, Bool.and_eq_true, decide_eq_true_eq] at h
  simp only [isPyWs, Bool.or_eq_false_iff, decide_eq_false_iff_not]
  omega

theorem pyLower_digit (c : Char) (h : isAsciiDigit c = true) : pyLower c = c := by
  simp only [isAsciiDigit, Bool.and_eq_true, decide_eq_true_eq] at h
  have hcond : (65 ≤ c.toNat && c.toNat ≤ 90) = false := by
    simp only [Bool.and_eq_false_iff, decide_eq_false_iff_not]
    omega
  simp [pyLower, hcond]

theorem digit_ne_minus (c : Char) (h : isAsciiDigit c = true) : c ≠ '-' := by
  rintro rfl
  exact absurd h (by decide)

theorem digit_ne_plus (c : Char) (h : isAsciiDigit c = true) : c ≠ '+' := by
  rintro rfl
  exact absurd h (by decide)

theorem digit_ne_x (c : Char) (h : isAsciiDigit c = true) : c ≠ 'x' := by
  rintro rfl
  exact absurd h (by decide)

theorem dropTrailingWs_cons_of_not_ws (c : Char) (r : List Char)
    (h : isPyWs c = false) : ∃ r2, dropTrailingWs (c :: r) = c :: r2 := by
  cases hd : dropTrailingWs r with
  | nil => exact ⟨[], by simp [dropTrailingWs, hd, h]⟩
  | cons a as => exact ⟨a :: as, by simp [dropTrailingWs, hd]⟩

theorem applyExp_nonneg (q : ℚ) (e : Int) (h : 0 ≤ q) : 0 ≤ applyExp q e := by
  unfold applyExp
  split
  · exact h
  split
  · exact mul_nonneg h (by positivity)
  · exact div_nonneg h (by positivity)

theorem pyFloatBody_nonneg (l : List Char) (q : ℚ)
    (h : pyFloatBody l = some q) : 0 ≤ q := by
  simp only [pyFloatBody] at h
  split at h
  · split at h
    · exact absurd h (by simp)
    · rw [Option.map_eq_some'] at h
      obtain ⟨e, _, rfl⟩ := h
      exact applyExp_nonneg _ _ (by positivity)
  · split at h
    · exact absurd h (by simp)
    · rw [Option.map_eq_some'] at h
      obtain ⟨e, _, rfl⟩ := h
      exact applyExp_nonneg _ _ (by positivity)

theorem pyFloat_nonneg_of_digit_head (c : Char) (r : List Char) (q : ℚ)
    (hc : isAsciiDigit c = true) (h : pyFloat (c :: r) = some q) : 0 ≤ q := by
  have hws := isPyWs_false_of_digit c hc
  obtain ⟨r2, hr2⟩ := dropTrailingWs_cons_of_not_ws c r hws
  simp only [pyFloat, List.dropWhile_cons, hws, Bool.false_eq_true, if_false, hr2] at h
  split at h
  · rename_i heq
    exact absurd (List.head_eq_of_cons_eq heq.symm).symm (digit_ne_minus c hc)
  · rename_i heq
    exact absurd (List.head_eq_of_cons_eq heq.symm).symm (digit_ne_plus c hc)
  · exact pyFloatBody_nonneg _ _ h

theorem lowerList_digits (l : List Char) (h : l.all isAsciiDigit = true) :
    lowerList l = l := by
  induction l with
  | nil => rfl
  | cons c r ih =>
    simp only [List.all_cons, Bool.and_eq_true] at h
    simp only [lowerList, List.map_cons]
    rw [pyLower_digit c h.1]
    exact congrArg (c :: ·) (ih h.2)

theorem size_regex_structure (l : List Char) (h : size_regex l = true) :
    ∃ k x c, 1 ≤ k ∧ (l.take k).length = k ∧ (l.take k).all isAsciiDigit = true ∧
      l[k]? = some x ∧ (x = 'x' ∨ x = 'X') ∧ l[k + 1]? = some c ∧
      isAsciiDigit c = true := by
  simp only [size_regex, List.any_eq_true] at h
  obtain ⟨k, hk, hcond⟩ := h
  simp only [Bool.and_eq_true] at hcond
  obtain ⟨⟨⟨hlen, hall⟩, hx⟩, hc⟩ := hcond
  cases hxv : l[k]? with
  | none => rw [hxv] at hx; exact absurd hx (by simp)
  | some x =>
    cases hcv : l[k + 1]? with
    | none => rw [hcv] at hc; exact absurd hc (by simp)
    | some c =>
      simp only [hxv] at hx
      simp only [hcv] at hc
      refine ⟨k, x, c, ?_, of_decide_eq_true hlen, hall, hxv, ?_, hcv, hc⟩
      · simp only [List.mem_cons, List.mem_singleton, List.not_mem_nil, or_false] at hk
        omega
      · simpa using hx

theorem splitFirst_of_sep (sep : Char) (a b : List Char)
    (h : ∀ x ∈ a, x ≠ sep) : splitFirst sep (a ++ sep :: b) = [a, b] := by
  induction a with
  | nil => simp [splitFirst]
  | cons c r ih =>
    have hc : ¬ c = sep := h c (by simp)
    simp only [List.cons_append, splitFirst, if_neg hc, List.append_eq]
    rw [ih (fun x hx => h x (by simp [hx]))]

theorem size_split_structure (l : List Char) (h : size_regex l = true) :
    ∃ d1 c2 r2, splitFirst 'x' (lowerList l) = [d1, c2 :: r2] ∧ d1 ≠ [] ∧
      d1.all isAsciiDigit = true ∧ isAsciiDigit c2 = true := by
  obtain ⟨k, x, c, hk1, hlen, hall, hx, hxor, hc, hcdig⟩ := size_regex_structure l h
  obtain ⟨hxlt, hxeq⟩ := List.getElem?_eq_some_iff.mp hx
  obtain ⟨hclt, hceq⟩ := List.getElem?_eq_some_iff.mp hc
  have hdk : l.drop k = x :: l.drop (k + 1) := by
    rw [List.drop_eq_getElem_cons hxlt, hxeq]
  have hdk1 : l.drop (k + 1) = c :: l.drop (k + 2) := by
    rw [List.drop_eq_getElem_cons hclt, hceq]
  have hdecomp : l = l.take k ++ x :: c :: l.drop (k + 2) := by
    conv_lhs => rw [← List.take_append_drop k l]
    rw [hdk, hdk1]
  have hpx : pyLower x = 'x' := by
    rcases hxor with rfl | rfl <;> decide
  refine ⟨l.take k, pyLower c, lowerList (l.drop (k + 2)), ?_, ?_, hall, ?_⟩
  · conv_lhs => rw [hdecomp]
    have : lowerList (l.take k ++ x :: c :: l.drop (k + 2)) =
        l.take k ++ 'x' :: pyLower c :: lowerList (l.drop (k + 2)) := by
      simp only [lowerList, List.map_append, List.map_cons]
      rw [← lowerList, ← lowerList, lowerList_digits _ hall, hpx]
    rw [this]
    refine splitFirst_of_sep 'x' (l.take k) _ (fun ch hch => ?_)
    exact digit_ne_x ch (by
      rw [List.all_eq_true] at hall
      exact hall ch hch)
  · exact List.ne_nil_of_length_pos (by rw [hlen]; exact hk1)
  · rw [pyLower_digit c hcdig]
    exact hcdig

theorem _parse_size_str_nonneg (s : String) (vals : List ℚ)
    (h : _parse_size (.str s) = .ok vals) : ∀ v ∈ vals, 0 ≤ v := by
  by_cases hs : s = ""
  · subst hs
    rw [show _parse_size (.str "") = .ok [256, 256] from by decide] at h
    injection h with h
    subst h
    intro v hv
    simp only [List.mem_cons, List.not_mem_nil, or_false] at hv
    rcases hv with rfl | rfl <;> norm_num
  · have hfal : (SizeArg.str s).isFalsy = false := by
      simp [SizeArg.isFalsy, hs]
    simp only [_parse_size, hfal, Bool.false_eq_true, if_false] at h
    cases hreg : size_regex s.data with
    | false => rw [hreg] at h; simp at h
    | true =>
      rw [hreg] at h
      simp only [Bool.not_true, Bool.false_eq_true, if_false] at h
      obtain ⟨d1, c2, r2, hsp, hne, hdig, hc2⟩ := size_split_structure s.data hreg
      rw [hsp] at h
      simp only [List.map_cons, List.map_nil] at h
      cases h1 : pyFloat d1 with
      | none => rw [h1] at h; simp at h
      | some a =>
        cases h2 : pyFloat (c2 :: r2) with
        | none => rw [h1, h2] at h; simp at h
        | some b =>
          rw [h1, h2] at h
          simp only [List.all_cons, List.all_nil, Option.isSome_some, Bool.and_true,
            List.reduceOption_cons_of_some, List.reduceOption_nil, if_true] at h
          injection h with h
          subst h
          obtain ⟨dc, dr, rfl⟩ : ∃ dc dr, d1 = dc :: dr := by
            cases d1 with
            | nil => exact absurd rfl hne
            | cons dc dr => exact ⟨dc, dr, rfl⟩
          have hdc : isAsciiDigit dc = true := by
        
            simp only [List.all_cons, Bool.and_eq_true] at hdig
            exact hdig.1
          have ha := pyFloat_nonneg_of_digit_head dc dr a hdc h1
          have hb := pyFloat_nonneg_of_digit_head c2 r2 b hc2 h2
          intro v hv
          simp only [List.mem_cons, List.not_mem_nil, or_false] at hv
          rcases hv with rfl | rfl
          · exact ha
          · exact hb

/-- C4 (amended): every accepted size yields non-negative components; they
are the default 256 for falsy input and `(s, s)` for a number `s`, so they
are positive exactly when the input is absent or positive. -/
theorem parse_size_components_nonneg (a : SizeArg) (vals : List ℚ)
    (hok : _parse_size a = .ok vals)
    (hsign : match a with
      | .int n => 0 ≤ n
      | .float q => 0 ≤ q
      | _ => True) :
    ∀ v ∈ vals, 0 ≤ v := by
  have h256 : ∀ v ∈ ([256, 256] : List ℚ), 0 ≤ v := by
    intro v hv
    simp only [List.mem_cons, List.not_mem_nil, or_false] at hv
    rcases hv with rfl | rfl <;> norm_num
  cases a with
  | pynone =>
    rw [show _parse_size .pynone = .ok [256, 256] from rfl] at hok
    injection hok with hok
    exact hok ▸ h256
  | int n =>
    by_cases h0 : n = 0
    · subst h0
      rw [show _parse_size (.int 0) = .ok [256, 256] from by decide] at hok
      injection hok with hok
      exact hok ▸ h256
    · have hfal : (SizeArg.int n).isFalsy = false := by
        simp [SizeArg.isFalsy, h0]
      simp only [_parse_size, hfal, Bool.false_eq_true, if_false] at hok
      injection hok with hok
      subst hok
      intro v hv
      simp only [List.mem_cons, List.not_mem_nil, or_false] at hv
      rcases hv with rfl | rfl <;> exact_mod_cast hsign
  | float q =>
    by_cases h0 : q = 0
    · subst h0
      rw [show _parse_size (.float 0) = .ok [256, 256] from by decide] at hok
      injection hok with hok
      exact hok ▸ h256
    · have hfal : (SizeArg.float q).isFalsy = false := by
        simp [SizeArg.isFalsy, h0]
      simp only [_parse_size, hfal, Bool.false_eq_true, if_false] at hok
      injection hok with hok
      subst hok
      intro v hv
      simp only [List.mem_cons, List.not_mem_nil, or_false] at hv
      rcases hv with rfl | rfl <;> exact hsign
  | str s => exact _parse_size_str_nonneg s vals hok
  | other t =>
    cases t with
    | false =>
      rw [show _parse_size (.other false) = .ok [256, 256] from rfl] at hok
      injection hok with hok
      exact hok ▸ h256
    | true =>
      rw [show _parse_size (.other true) = .error (.valueError sizePrompt) from by decide] at hok
      exact PRes.noConfusion hok

/-- C4 counterexample: `-1` and `"0x5"` are accepted by `_parse_size`
without raising, yet produce components that are not strictly positive. -/
theorem parse_size_positive_cex :
    _parse_size (.int (-1)) = .ok [-1, -1] ∧ ¬ ((0 : ℚ) < -1) ∧
      _parse_size (.str "0x5") = .ok [0, 5] ∧ ¬ ((0 : ℚ) < 0) :=
  ⟨by decide, by norm_num, by decide, by norm_num⟩

/-- C4 witness: the accepted size string `"3x4"` has non-negative
components. -/
theorem parse_size_components_nonneg_witness :
    _parse_size (.str "3x4") = .ok [3, 4] ∧ ∀ v ∈ ([3, 4] : List ℚ), 0 ≤ v :=
  ⟨by decide, parse_size_components_nonneg (.str "3x4") [3, 4] (by decide) trivial⟩

/-- C9: the falsy values `0`, `""` (and `0.0`) are treated by `_parse_size`
exactly like an absent size, yielding the default `(256, 256)`, because the
falsiness test precedes the type dispatch. -/
theorem parse_size_falsy_default :
    _parse_size (.int 0) = .ok [256, 256] ∧ _parse_size (.str "") = .ok [256, 256] ∧
      _parse_size (.float 0) = .ok [256, 256] :=
  ⟨by decide, by decide, by decide⟩

/-- C5 (amended): `_parse_size` coincides with the reference definition of
the size normalizer once the reference is amended to treat falsy inputs
(`0`, `0.0`, `""`, falsy objects) like an absent size. -/
theorem parse_size_eq_ref_amended (a : SizeArg) :
    _parse_size a = parse_size_ref_amended a := by
  cases a with
  | pynone => rfl
  | int n =>
    by_cases h0 : n = 0
    · subst h0; decide
    · have hfal : (SizeArg.int n).isFalsy = false := by
        simp [SizeArg.isFalsy, h0]
      simp [_parse_size, parse_size_ref_amended, parse_size_ref, hfal]
  | float q =>
    by_cases h0 : q = 0
    · subst h0; decide
    · have hfal : (SizeArg.float q).isFalsy = false := by
        simp [SizeArg.isFalsy, h0]
      simp [_parse_size, parse_size_ref_amended, parse_size_ref, hfal]
  | other t => cases t <;> decide
  | str s =>
    by_cases hs : s = ""
    · subst hs; decide
    · have hfal : (SizeArg.str s).isFalsy = false := by
        simp [SizeArg.isFalsy, hs]
      simp only [_parse_size, parse_size_ref_amended, parse_size_ref, hfal,
        Bool.false_eq_true, if_false]
      cases hreg : size_regex s.data with
      | false => simp [hreg]
      | true =>
        simp only [hreg, Bool.not_true, Bool.false_eq_true, if_false, if_true]
        obtain ⟨d1, c2, r2, hsp, hne, hdig, hc2⟩ := size_split_structure s.data hreg
        rw [hsp]
        simp only [List.map_cons, List.map_nil]
        cases h1 : pyFloat d1 with
        | none => simp
        | some v1 =>
          cases h2 : pyFloat (c2 :: r2) with
          | none => simp
          | some v2 => simp

/-- C5 counterexample: on the inputs `0` and `""` the code differs from the
unamended reference definition — the code returns the default, the
reference returns `(0, 0)` respectively a `ValueError`. -/
theorem parse_size_ref_mismatch_cex :
    _parse_size (.int 0) = .ok [256, 256] ∧ parse_size_ref (.int 0) = .ok [0, 0] ∧
      ([256, 256] : List ℚ) ≠ [0, 0] ∧
      _parse_size (.str "") = .ok [256, 256] ∧
      parse_size_ref (.str "") = .error (.valueError sizePrompt) :=
  ⟨by decide, by decide, by decide, by decide, by decide⟩

/-! ## Lemmas for the filename heuristic -/

theorem find?_cons_pos (p : α → Bool) (a : α) (l : List α) (h : p a = true) :
    (a :: l).find? p = some a :=
  List.find?_cons_of_pos l h

theorem find?_cons_neg (p : α → Bool) (a : α) (l : List α) (h : ¬ p a = true) :
    (a :: l).find? p = l.find? p :=
  List.find?_cons_of_neg l h

theorem bestOf_eq_find_max (l : List ZipEntry) : ∀ b : ZipEntry,
    (b :: l).find? (fun e => (b :: l).all (fun g => g.file_size ≤ e.file_size)) =
      some (bestOf b l) := by
  induction l with
  | nil =>
    intro b
    rw [List.find?_cons_of_pos]
    · rfl
    · simp
  | cons f r ih =>
    intro b
    by_cases hgt : b.file_size < f.file_size
    · have hpe : ∀ e : ZipEntry,
          ((b :: f :: r).all (fun g => g.file_size ≤ e.file_size)) =
            ((f :: r).all (fun g => g.file_size ≤ e.file_size)) := by
        intro e
        rw [Bool.eq_iff_iff]
        simp only [List.all_eq_true, List.mem_cons, decide_eq_true_eq]
        constructor
        · intro h x hx
          rcases hx with rfl | hx
          · exact h x (Or.inr (Or.inl rfl))
          · exact h x (Or.inr (Or.inr hx))
        · intro h x hx
          rcases hx with rfl | rfl | hx
          · have hf := h f (Or.inl rfl)
            omega
          · exact h x (Or.inl rfl)
          · exact h x (Or.inr hx)
      have hnb : ¬ ((b :: f :: r).all (fun g => g.file_size ≤ b.file_size)) = true := by
        simp only [List.all_eq_true, List.mem_cons, decide_eq_true_eq]
        intro h
        have := h f (Or.inr (Or.inl rfl))
        omega
      rw [find?_cons_neg (fun e : ZipEntry =>
        (b :: f :: r).all (fun g => g.file_size ≤ e.file_size)) b (f :: r) hnb]
      rw [show (fun e : ZipEntry => (b :: f :: r).all (fun g => g.file_size ≤ e.file_size)) =
          (fun e : ZipEntry => (f :: r).all (fun g => g.file_size ≤ e.file_size)) from
        funext hpe]
      rw [show bestOf b (f :: r) = bestOf f r from by
        rw [bestOf, if_pos hgt]]
      exact ih f
    · have hle : f.file_size ≤ b.file_size := by omega
      have hpe : ∀ e : ZipEntry,
          ((b :: f :: r).all (fun g => g.file_size ≤ e.file_size)) =
            ((b :: r).all (fun g => g.file_size ≤ e.file_size)) := by
        intro e
        rw [Bool.eq_iff_iff]
        simp only [List.all_eq_true, List.mem_cons, decide_eq_true_eq]
        constructor
        · intro h x hx
          rcases hx with rfl | hx
          · exact h x (Or.inl rfl)
          · exact h x (Or.inr (Or.inr hx))
        · intro h x hx
          rcases hx with rfl | rfl | hx
          · exact h x (Or.inl rfl)
          · have hb := h b (Or.inl rfl)
            omega
          · exact h x (Or.inr hx)
      rw [show bestOf b (f :: r) = bestOf b r from by
        rw [bestOf, if_neg (by omega : ¬ f.file_size > b.file_size)]]
      have hbr := ih b
      by_cases hpb : ((b :: r).all (fun g => g.file_size ≤ b.file_size)) = true
      · rw [find?_cons_pos (fun e : ZipEntry =>
          (b :: f :: r).all (fun g => g.file_size ≤ e.file_size)) b (f :: r) ((hpe b).trans hpb)]
        rw [find?_cons_pos (fun e : ZipEntry =>
          (b :: r).all (fun g => g.file_size ≤ e.file_size)) b r hpb] at hbr
        exact hbr
      · have hnb2 : ¬ ((b :: f :: r).all (fun g => g.file_size ≤ b.file_size)) = true := by
          rw [hpe b]
          exact hpb
        have hnf : ¬ ((b :: f :: r).all (fun g => g.file_size ≤ f.file_size)) = true := by
          rw [hpe f]
          simp only [List.all_eq_true, List.mem_cons, decide_eq_true_eq] at hpb ⊢
          intro hf
          apply hpb
          intro x hx
          have hxf := hf x hx
          omega
        rw [find?_cons_neg (fun e : ZipEntry =>
          (b :: f :: r).all (fun g => g.file_size ≤ e.file_size)) b (f :: r) hnb2]
        rw [find?_cons_neg (fun e : ZipEntry =>
          (b :: f :: r).all (fun g => g.file_size ≤ e.file_size)) f r hnf]
        rw [find?_cons_neg (fun e : ZipEntry =>
          (b :: r).all (fun g => g.file_size ≤ e.file_size)) b r hpb] at hbr
        rw [show (fun e : ZipEntry => (b :: f :: r).all (fun g => g.file_size ≤ e.file_size)) =
            (fun e : ZipEntry => (b :: r).all (fun g => g.file_size ≤ e.file_size)) from
          funext hpe]
        exact hbr

theorem coverByFilenameLoop_spec (l : List ZipEntry) : ∀ acc : List ZipEntry,
    coverByFilenameLoop l acc =
      match l.find? (fun f => cover_regex f.filename) with
      | some f => some (.name f.filename)
      | none =>
        (_choose_best_image (acc ++ l.filter (fun f => img_ext_regex f.filename))).map
          CoverPath.info := by
  induction l with
  | nil =>
    intro acc
    simp [coverByFilenameLoop]
  | cons f rest ih =>
    intro acc
    by_cases hc : cover_regex f.filename = true
    · rw [show coverByFilenameLoop (f :: rest) acc = some (.name f.filename) from by
        rw [coverByFilenameLoop, if_pos hc]]
      rw [find?_cons_pos (fun f => cover_regex f.filename) f rest hc]
    · rw [show coverByFilenameLoop (f :: rest) acc =
          coverByFilenameLoop rest (acc ++ if img_ext_regex f.filename then [f] else []) from by
        rw [coverByFilenameLoop, if_neg hc]]
      rw [ih]
      rw [find?_cons_neg (fun f => cover_regex f.filename) f rest hc]
      cases hf : rest.find? (fun f => cover_regex f.filename) with
      | some g => rfl
      | none =>
        rw [List.filter_cons]
        by_cases himg : img_ext_regex f.filename = true
        · rw [if_pos himg, if_pos himg]
          rw [List.append_assoc]
          rfl
        · rw [if_neg himg, if_neg himg]
          rw [List.append_nil]

/-- C7 (amended): the filename heuristic follows the reference algorithm,
except that in the largest-image case it returns the winning `ZipInfo`
entry object itself rather than its name: the name of the first entry
matching the cover pattern; otherwise the first-encountered entry of
maximal byte size among image-extension entries; nothing when there are no
image-extension entries. -/
theorem get_cover_by_filename_eq_spec (epub : EpubArchive) :
    get_cover_by_filename epub = coverByFilenameSpec epub := by
  rw [get_cover_by_filename, coverByFilenameLoop_spec]
  cases hf : epub.filelist.find? (fun f => cover_regex f.filename) with
  | some g => simp only [coverByFilenameSpec, hf]
  | none =>
    simp only [coverByFilenameSpec, hf, List.nil_append]
    cases himg : epub.filelist.filter (fun f => img_ext_regex f.filename) with
    | nil => rfl
    | cons x r =>
      rw [show _choose_best_image (x :: r) = some (bestOf x r) from rfl]
      rw [bestOf_eq_find_max]

/-- C7 counterexample: with one image entry and no cover-pattern match the
filename heuristic returns the `ZipInfo` entry object, not the entry's
name string. -/
theorem filename_heuristic_info_cex :
    get_cover_by_filename ⟨[⟨"a.jpg", 500, .image "RGB"⟩]⟩ =
      some (.info ⟨"a.jpg", 500, .image "RGB"⟩) ∧
      some (CoverPath.info ⟨"a.jpg", 500, .image "RGB"⟩) ≠
        some (CoverPath.name "a.jpg") := by
  constructor
  · rfl
  · intro h
    injection h with h
    exact CoverPath.noConfusion h

/-! ## Claims about the manifest resolver -/

/-- C6: when the container and package documents parse, the package
document holds a manifest, and some manifest item satisfies the
cover-candidate condition (id equal to `cover_id`, or id containing
`cover` with image-like href, or the same two tests on `properties`),
`get_cover_from_manifest` returns the href of the FIRST such item in
document order, path-joined to the directory of the rootfile path. -/
theorem get_cover_from_manifest_first_match (z : EpubArchive)
    (centry oentry : ZipEntry) (croot oroot relem manifest it : XmlNode) (rp : String)
    (h1 : z.openEntry "META-INF/container.xml" = .ok centry)
    (h2 : centry.data = .xml croot)
    (h3 : (docByTag croot "rootfile")[0]? = some relem)
    (h4 : relem.getAttribute "full-path" = rp)
    (h5 : z.openEntry rp = .ok oentry)
    (h6 : oentry.data = .xml oroot)
    (h7 : (docByTag oroot "manifest")[0]? = some manifest)
    (h8 : (elemByTag manifest "item").find?
        (itemMatches (findCoverId (docByTag oroot "meta"))) = some it) :
    get_cover_from_manifest z =
      .ok (some (pjoin (dirname rp) (it.getAttribute "href"))) := by
  simp only [get_cover_from_manifest, h1, PRes.bind_ok, parseXmlEntry, h2, pyIndex, h3,
    h4, h5, h6, h7, h8, PRes.pure_eq, Option.map_some']

/-- C6 witness: on the standard archive the resolver returns
`OEBPS/images/cover.jpg`, the href of the item whose id equals the
`meta[name=cover]` content id, joined to the rootfile directory `OEBPS`. -/
theorem get_cover_from_manifest_first_match_witness :
    get_cover_from_manifest zStandard = .ok (some "OEBPS/images/cover.jpg") := by
  have h := get_cover_from_manifest_first_match zStandard _ _ _ _ _ _ _
    "OEBPS/content.opf" rfl rfl rfl rfl rfl rfl rfl rfl
  rw [h]
  rfl

/-- C2 (amended): when the container parses and the package document
parses but contains no `manifest` element, `get_cover_from_manifest`
raises `IndexError` — the orchestrator then enters its error path instead
of advancing to the filename strategy; the no-candidate `None` is returned
only when a manifest exists but no item matches. -/
theorem get_cover_from_manifest_no_manifest_raises (z : EpubArchive)
    (centry oentry : ZipEntry) (croot oroot relem : XmlNode) (rp : String)
    (h1 : z.openEntry "META-INF/container.xml" = .ok centry)
    (h2 : centry.data = .xml croot)
    (h3 : (docByTag croot "rootfile")[0]? = some relem)
    (h4 : relem.getAttribute "full-path" = rp)
    (h5 : z.openEntry rp = .ok oentry)
    (h6 : oentry.data = .xml oroot)
    (h7 : docByTag oroot "manifest" = []) :
    get_cover_from_manifest z = .error .indexError := by
  simp only [get_cover_from_manifest, h1, PRes.bind_ok, parseXmlEntry, h2, pyIndex, h3,
    h4, h5, h6, h7, List.getElem?_nil, PRes.bind_error]

/-- C2 counterexample: on an archive whose package document has no
manifest element, `get_cover_from_manifest` raises `IndexError`; it does
not return the no-candidate `None`. -/
theorem no_manifest_returns_none_cex :
    get_cover_from_manifest zNoManifest = .error .indexError ∧
      (PRes.error PyError.indexError : PRes (Option String)) ≠ .ok none := by
  constructor
  · decide
  · intro h
    exact PRes.noConfusion h

/-- C2 witness: the hypotheses of the amended claim hold of
`zNoManifest`, and the resolver indeed raises `IndexError` there. -/
theorem get_cover_from_manifest_no_manifest_raises_witness :
    get_cover_from_manifest zNoManifest = .error .indexError :=
  get_cover_from_manifest_no_manifest_raises zNoManifest _ _ _ _ _
    "content.opf" rfl rfl rfl rfl rfl rfl rfl

/-- C10 (amended): with an empty `cover_id` (a `meta[name=cover]` element
whose `content` attribute is empty or absent), every manifest item lacking
a `properties` attribute satisfies the cover-candidate test — the DOM
yields `""` for the missing attribute, which equals the empty `cover_id` —
even when the item's href is not an image.  The resolver returns the first
item satisfying the (degenerate) test, which is the first
properties-lacking item only when no earlier item matches otherwise. -/
theorem itemMatches_empty_cover_id (item : XmlNode)
    (h : item.getAttribute "properties" = "") :
    itemMatches (some "") item = true := by
  simp [itemMatches, h]

/-- C10 witness: an item with no `properties` attribute and a non-image
href (`toc.ncx`) is a cover candidate under an empty `cover_id`. -/
theorem itemMatches_empty_cover_id_witness :
    itemMatches (some "")
      (.elem "item" [("id", "i2"), ("href", "toc.ncx")] []) = true :=
  itemMatches_empty_cover_id (.elem "item" [("id", "i2"), ("href", "toc.ncx")] []) rfl

/-- C10 counterexample: in `zEmptyCoverId` the first properties-lacking
item is the second item (`toc.ncx`), but the resolver returns the FIRST
item's href `c.jpg`, which matches through the `cover`-in-id clause even
though it carries a `properties` attribute. -/
theorem empty_cover_id_first_props_cex :
    get_cover_from_manifest zEmptyCoverId = .ok (some "c.jpg") ∧
      (PRes.ok (some "c.jpg") : PRes (Option String)) ≠ .ok (some "toc.ncx") := by
  constructor
  · decide
  · intro h
    injection h with h
    injection h with h
    exact absurd h (by decide)

/-! ## Claims about the orchestrator -/

/-- C1 (code bug): on an archive with no container entry the first
strategy raises `KeyError`; the `except` block's f-string then reads the
undefined name `stratey`, so `get_cover` raises `NameError` instead of the
intended `EpubThumbnailerException` carrying the strategy's name and the
original message.  The abort behaviour (no further strategy attempted)
still holds, but the advertised exception type and message do not. -/
theorem get_cover_nameError_on_strategy_failure :
    get_cover fsEmptyZip "/b.epub" (some "/t.png") (.int 100) =
      .error (.nameError "stratey") := by
  decide

/-- C3 counterexample: an archive missing both the container metadata and
any image-like entry makes the first strategy raise (`KeyError` on the
container entry), so `get_cover` raises (with the `stratey` `NameError` of
the broken handler) instead of returning the null result. -/
theorem missing_metadata_raises_cex :
    get_cover fsMimetypeOnly "/c.epub" (some "/t.png") (.int 100) =
      .error (.nameError "stratey") ∧
      (PRes.error (PyError.nameError "stratey") : PRes (Option String)) ≠ .ok none := by
  constructor
  · decide
  · intro h
    exact PRes.noConfusion h

/-- C3 (amended): when both strategies yield no candidate without raising —
container, package and manifest parse but no item matches, and no entry
name is image-like — `get_cover` returns the null result `None` and does
not raise. -/
theorem get_cover_none_of_no_candidates (fs : Fs) (filein : String)
    (fileimg : Option String) (size : SizeArg) (vals : List ℚ) (z : EpubArchive)
    (hsize : _parse_size size = .ok vals)
    (hfile : lookupFile fs (abspath fs.cwd filein) = some (.epubZip z))
    (hman : get_cover_from_manifest z = .ok none)
    (hfn : get_cover_by_filename z = none) :
    get_cover fs filein fileimg size = .ok none := by
  simp only [get_cover, _formal_checks, hsize, PRes.bind_ok, PRes.pure_eq, hfile, hman,
    hfn, extract_cover, Option.map_none']

/-- C3 witness: on an archive with an empty manifest and no image entries,
`get_cover` returns `None`. -/
theorem get_cover_none_of_no_candidates_witness :
    get_cover fsNoCandidates "/n.epub" (some "/t.png") (.int 100) = .ok none :=
  get_cover_none_of_no_candidates fsNoCandidates "/n.epub" (some "/t.png") (.int 100)
    [100, 100] zNoCandidates (by decide) rfl (by decide) rfl

/-- C8 counterexample: with a non-existent input path and a malformed size
argument, `get_cover` fails with the size `ValueError`, not with the
input-not-found error — size normalization runs first. -/
theorem size_error_before_existence_cex :
    get_cover fsEmpty "missing.epub" none (.str "bogus") =
      .error (.valueError sizePrompt) ∧
      PyError.valueError sizePrompt ≠
        .valueError ("missing.epub" ++ " does not exists or can\x27t be accessed") := by
  constructor
  · decide
  · decide

/-- C8 (amended): the existence test on the input path runs after size
normalization, not before it: whenever the size argument is accepted and
the (absolute) input path does not exist, `get_cover` fails with the
input-not-found `ValueError` naming the original argument; with an invalid
size the size error is raised first. -/
theorem get_cover_not_found (fs : Fs) (filein : String) (fileimg : Option String)
    (size : SizeArg) (vals : List ℚ)
    (hsize : _parse_size size = .ok vals)
    (hmiss : lookupFile fs (abspath fs.cwd filein) = none) :
    get_cover fs filein fileimg size =
      .error (.valueError (filein ++ " does not exists or can\x27t be accessed")) := by
  simp only [get_cover, _formal_checks, hsize, PRes.bind_ok, PRes.pure_eq, hmiss]

/-- C8 witness: a missing relative path with a valid numeric size produces
the input-not-found error. -/
theorem get_cover_not_found_witness :
    get_cover fsEmpty "b.epub" none (.int 100) =
      .error (.valueError ("b.epub" ++ " does not exists or can\x27t be accessed")) :=
  get_cover_not_found fsEmpty "b.epub" none (.int 100) [100, 100] (by decide) rfl
